import Mathlib

/-!
Verification of the hyperbolic geometry kernel of the
hyperbolic-point-and-click repository (src/hyperbolic_functions.js).

The JavaScript functions are shallowly embedded over `ℝ`: every JS object
becomes a structure, every arithmetic expression is transcribed literally
(JS `Math.atan2`, `Math.acosh`, `Math.atanh`, `Math.hypot` are given their
standard real definitions).  Division by zero follows Lean's `x / 0 = 0`
convention; where a claim is about a division by zero actually occurring,
the theorems exhibit the vanishing denominator itself.
-/

noncomputable section

namespace HyperbolicPC

open Real

/-- A planar point with real coordinates, embedding JS objects with fields x and y. -/
@[ext]
structure Point where
  x : ℝ
  y : ℝ

/-- A line in standard form a*x + b*y + c = 0, embedding JS objects with fields a, b, c. -/
@[ext]
structure Line where
  a : ℝ
  b : ℝ
  c : ℝ

/-- The bounding box of the rendering area. -/
structure BoundBox where
  left : ℝ
  top : ℝ
  right : ℝ
  bottom : ℝ

/-- The poindisk object: bounding box, canvas center (cx, cy) and radius r. -/
structure PoinDisk where
  boundbox : BoundBox
  cx : ℝ
  cy : ℝ
  r : ℝ

/-- The circle record returned by poincare_circle. -/
structure PCircle where
  cx : ℝ
  cy : ℝ
  r : ℝ
  px : ℝ
  py : ℝ
  center : Point
  hcenter : Point

/-- The arc record returned by poincare_geodesic. -/
structure Arc where
  p1 : Point
  p2 : Point
  c : Point
  startAngle : ℝ
  endAngle : ℝ
  r : ℝ

/-- The record returned by to_poincare. -/
structure ProjResult where
  center : Point
  circle : PCircle

/-- Embedding of JS Math.atan2(y, x). -/
def atan2 (y x : ℝ) : ℝ :=
  if 0 < x then arctan (y / x)
  else if x < 0 then
    (if 0 ≤ y then arctan (y / x) + π else arctan (y / x) - π)
  else
    (if 0 < y then π / 2 else if y < 0 then -(π / 2) else 0)

/-- Embedding of JS Math.hypot(x, y). -/
def hypot (x y : ℝ) : ℝ := Real.sqrt (x * x + y * y)

/-- Embedding of JS Math.acosh (finite exactly on x ≥ 1): log (x + sqrt (x*x - 1)). -/
def acosh (x : ℝ) : ℝ := Real.log (x + Real.sqrt (x * x - 1))

/-- Embedding of JS Math.atanh on its domain (-1, 1): log ((1+x)/(1-x)) / 2.
JS returns a finite value exactly when -1 < x < 1 (see atanhDomain). -/
def atanh (x : ℝ) : ℝ := Real.log ((1 + x) / (1 - x)) / 2

/-- The set of arguments on which JS Math.atanh returns a finite number. -/
def atanhDomain (x : ℝ) : Prop := -1 < x ∧ x < 1

/-- Embedding of canvas_to_disk from src/hyperbolic_functions.js. -/
def canvas_to_disk (p : Point) (poindisk : PoinDisk) : Point :=
  let rect := poindisk.boundbox
  { x := ((p.x - rect.left) / (rect.right - rect.left) - 0.5) * 2
    y := ((p.y - rect.top) / (rect.bottom - rect.top) - 0.5) * (-2) }

/-- Embedding of disk_to_canvas from src/hyperbolic_functions.js. -/
def disk_to_canvas (p : Point) (poindisk : PoinDisk) : Point :=
  { x := p.x * poindisk.r + poindisk.cx
    y := -p.y * poindisk.r + poindisk.cy }

/-- Embedding of euclid_dist from src/hyperbolic_functions.js. -/
def euclid_dist (p q : Point) : ℝ :=
  Real.sqrt ((p.x - q.x) ^ 2 + (p.y - q.y) ^ 2)

/-- Embedding of r_poincare_to_euclid from src/hyperbolic_functions.js. -/
def r_poincare_to_euclid (r : ℝ) : ℝ := Real.tanh (r / 2)

/-- Embedding of hyper_radius_from_euclidean from src/hyperbolic_functions.js. -/
def hyper_radius_from_euclidean (r : ℝ) : ℝ := 2 * atanh r

/-- Embedding of euclid_line from src/hyperbolic_functions.js, including the
normalization branch taken when the absolute value of b exceeds 0.001. -/
def euclid_line (p q : Point) : Line :=
  let line : Line := { a := p.y - q.y, b := q.x - p.x, c := p.x * q.y - q.x * p.y }
  if 0.001 < |line.b| then
    { a := line.a / line.b, b := line.b / line.b, c := line.c / line.b }
  else line

/-- Embedding of get_perpendicular_line from src/hyperbolic_functions.js. -/
def get_perpendicular_line (pq : Line) (v : Point) : Line :=
  { a := pq.b, b := -pq.a, c := -v.x * pq.b + v.y * pq.a }

/-- Embedding of find_midpoint from src/hyperbolic_functions.js. -/
def find_midpoint (p q : Point) : Point :=
  { x := (p.x + q.x) / 2, y := (p.y + q.y) / 2 }

/-- The denominator pq.b * xy.a - pq.a * xy.b by which find_intersection divides. -/
def intersect_det (pq xy : Line) : ℝ := pq.b * xy.a - pq.a * xy.b

/-- Embedding of find_intersection from src/hyperbolic_functions.js; the source
divides by the determinant unconditionally (its TODO notes that parallel lines
are not handled). -/
def find_intersection (pq xy : Line) : Point :=
  { x := (pq.c * xy.b - pq.b * xy.c) / (pq.b * xy.a - pq.a * xy.b)
    y := (pq.a * xy.c - pq.c * xy.a) / (pq.b * xy.a - pq.a * xy.b) }

/-- Embedding of circle_inversion from src/hyperbolic_functions.js; the circle
argument is the poindisk record (fields cx, cy, r), as invoked by poincare_geodesic. -/
def circle_inversion (p : Point) (circle : PoinDisk) : Point :=
  let cx := circle.cx
  let cy := circle.cy
  let dist := euclid_dist p { x := cx, y := cy }
  let new_c := circle.r * circle.r / (dist * dist)
  { x := new_c * (p.x - cx) + cx, y := new_c * (p.y - cy) + cy }

/-- The subtraction of boundbox left/top performed at the top of poincare_geodesic. -/
def offsetPoint (p : Point) (poindisk : PoinDisk) : Point :=
  { x := p.x - poindisk.boundbox.left, y := p.y - poindisk.boundbox.top }

/-- The perpendicular bisector line (m for p, n for q) built inside
poincare_geodesic for an already offset endpoint. -/
def geodesic_bisector (p : Point) (poindisk : PoinDisk) : Line :=
  get_perpendicular_line (euclid_line p (circle_inversion p poindisk))
    (find_midpoint p (circle_inversion p poindisk))

/-- The determinant of the linear system find_intersection(m, n) solves inside
poincare_geodesic. -/
def geodesic_det (p q : Point) (poindisk : PoinDisk) : ℝ :=
  intersect_det (geodesic_bisector p poindisk) (geodesic_bisector q poindisk)

/-- The center C computed inside poincare_geodesic for already offset endpoints. -/
def geodesic_center (p q : Point) (poindisk : PoinDisk) : Point :=
  find_intersection (geodesic_bisector p poindisk) (geodesic_bisector q poindisk)

/-- Embedding of poincare_geodesic from src/hyperbolic_functions.js. -/
def poincare_geodesic (p q : Point) (poindisk : PoinDisk) : Arc :=
  let pof := offsetPoint p poindisk
  let qof := offsetPoint q poindisk
  let C := geodesic_center pof qof poindisk
  { p1 := pof, p2 := qof, c := C
    startAngle := atan2 (qof.y - C.y) (qof.x - C.x)
    endAngle := atan2 (pof.y - C.y) (pof.x - C.x)
    r := euclid_dist pof C }

/-- The Euclidean norm of the center that poincare_circle passes (unclamped) to
atanh via hyper_radius_from_euclidean. -/
def poincare_circle_atanh_arg (center : Point) : ℝ :=
  Real.sqrt (center.x * center.x + center.y * center.y)

/-- Embedding of poincare_circle from src/hyperbolic_functions.js. -/
def poincare_circle (center : Point) (r : ℝ) (poindisk : PoinDisk) : PCircle :=
  let e_center_radius := poincare_circle_atanh_arg center
  let cr := hyper_radius_from_euclidean e_center_radius
  let dh1 := cr - r
  let dh2 := cr + r
  let de1 := r_poincare_to_euclid dh1
  let de2 := r_poincare_to_euclid dh2
  let er := (de2 - de1) / 2
  let ecr := (de2 + de1) / 2
  let c_theta := atan2 center.y center.x
  let x := ecr * Real.cos c_theta
  let y := ecr * Real.sin c_theta
  let canvas_coord := disk_to_canvas { x := x, y := y } poindisk
  { cx := canvas_coord.x, cy := canvas_coord.y, r := er * poindisk.r
    px := x, py := y, center := { x := x, y := y }
    hcenter := disk_to_canvas center poindisk }

/-- The value theta = Math.atan2(x, y) computed inside to_poincare (the source
passes the scaled x offset as the first argument). -/
def to_poincare_theta (ePosition : Point) (centerX centerY : ℝ) : ℝ :=
  atan2 (0.005 * (ePosition.x - centerX)) (0.005 * (ePosition.y - centerY))

/-- The value circleR = Math.hypot(x, y) computed inside to_poincare. -/
def to_poincare_circleR (ePosition : Point) (centerX centerY : ℝ) : ℝ :=
  hypot (0.005 * (ePosition.x - centerX)) (0.005 * (ePosition.y - centerY))

/-- The value poincareR = tanh(acosh(0.5*circleR*circleR + 1)/2) computed inside
to_poincare. -/
def to_poincare_poincareR (ePosition : Point) (centerX centerY : ℝ) : ℝ :=
  Real.tanh (acosh (0.5 * to_poincare_circleR ePosition centerX centerY *
    to_poincare_circleR ePosition centerX centerY + 1) / 2)

/-- Embedding of the record returned by to_poincare (canvas-space center plus the
companion circle of hyperbolic radius 0.05). -/
def to_poincare (ePosition : Point) (centerX centerY : ℝ) (poindisk : PoinDisk) : ProjResult :=
  let poinx := poindisk.r + poindisk.r *
    (to_poincare_poincareR ePosition centerX centerY *
      Real.sin (to_poincare_theta ePosition centerX centerY))
  let poiny := poindisk.r + poindisk.r *
    (to_poincare_poincareR ePosition centerX centerY *
      Real.cos (to_poincare_theta ePosition centerX centerY))
  { center := { x := poinx, y := poiny }
    circle := poincare_circle (canvas_to_disk { x := poinx, y := poiny } poindisk) 0.05 poindisk }

/-- Embedding of the circle to_poincare writes onto the node object when its
inPlace flag is true: poincare_circle with hyperbolic radius 0.2 at the same
projected center. -/
def to_poincare_inplace_circle (ePosition : Point) (centerX centerY : ℝ)
    (poindisk : PoinDisk) : PCircle :=
  poincare_circle
    (canvas_to_disk (to_poincare ePosition centerX centerY poindisk).center poindisk)
    0.2 poindisk

/-- Evaluation of line l at point P; the points of the line are its zeros. -/
def lineEval (l : Line) (P : Point) : ℝ := l.a * P.x + l.b * P.y + l.c

/-- Squared Euclidean distance, used to reason about euclid_dist without sqrt. -/
def distSq (p q : Point) : ℝ := (p.x - q.x) ^ 2 + (p.y - q.y) ^ 2

/-- The un-normalized line record computed first inside euclid_line. -/
def rawLine (p q : Point) : Line :=
  { a := p.y - q.y, b := q.x - p.x, c := p.x * q.y - q.x * p.y }

/-- Scaling all three coefficients of a line by k (same zero set when k is nonzero). -/
def lineSMul (k : ℝ) (l : Line) : Line := ⟨k * l.a, k * l.b, k * l.c⟩

theorem euclid_dist_mul_self (p q : Point) :
    euclid_dist p q * euclid_dist p q = distSq p q :=
  Real.mul_self_sqrt (by positivity)

theorem euclid_dist_eq_sqrt_distSq (p q : Point) :
    euclid_dist p q = Real.sqrt (distSq p q) := rfl

theorem distSq_comm (p q : Point) : distSq p q = distSq q p := by
  unfold distSq; ring

theorem distSq_eq_zero_iff (p q : Point) : distSq p q = 0 ↔ p = q := by
  unfold distSq
  constructor
  · intro h0
    have hx : (p.x - q.x) ^ 2 = 0 := by
      nlinarith [sq_nonneg (p.x - q.x), sq_nonneg (p.y - q.y)]
    have hy : (p.y - q.y) ^ 2 = 0 := by
      nlinarith [sq_nonneg (p.x - q.x), sq_nonneg (p.y - q.y)]
    have hx0 := sq_eq_zero_iff.mp hx
    have hy0 := sq_eq_zero_iff.mp hy
    ext
    · linarith
    · linarith
  · intro h0
    rw [h0]; ring

theorem distSq_ne_zero (p q : Point) (h : p ≠ q) : distSq p q ≠ 0 :=
  fun h0 => h ((distSq_eq_zero_iff p q).mp h0)

/-- The normalization inside euclid_line only rescales the raw line by a nonzero factor. -/
theorem euclid_line_eq_smul (p q : Point) :
    ∃ k : ℝ, k ≠ 0 ∧ euclid_line p q = lineSMul k (rawLine p q) := by
  simp only [euclid_line, rawLine]
  split_ifs with h
  · have hb : q.x - p.x ≠ 0 := by
      intro h0
      rw [h0, abs_zero] at h
      norm_num at h
    refine ⟨(q.x - p.x)⁻¹, inv_ne_zero hb, ?_⟩
    simp only [lineSMul, Line.mk.injEq]
    refine ⟨?_, ?_, ?_⟩ <;> rw [inv_mul_eq_div]
  · exact ⟨1, one_ne_zero, by simp only [lineSMul, Line.mk.injEq]; norm_num⟩

theorem get_perpendicular_line_smul (k : ℝ) (l : Line) (v : Point) :
    get_perpendicular_line (lineSMul k l) v = lineSMul k (get_perpendicular_line l v) := by
  refine Line.ext ?_ ?_ ?_ <;> simp only [get_perpendicular_line, lineSMul] <;> ring

theorem intersect_det_smul (k₁ k₂ : ℝ) (l₁ l₂ : Line) :
    intersect_det (lineSMul k₁ l₁) (lineSMul k₂ l₂) = (k₁ * k₂) * intersect_det l₁ l₂ := by
  simp only [intersect_det, lineSMul]; ring

theorem find_intersection_smul (k₁ k₂ : ℝ) (h₁ : k₁ ≠ 0) (h₂ : k₂ ≠ 0) (l₁ l₂ : Line) :
    find_intersection (lineSMul k₁ l₁) (lineSMul k₂ l₂) = find_intersection l₁ l₂ := by
  have hk : k₁ * k₂ ≠ 0 := mul_ne_zero h₁ h₂
  simp only [find_intersection, lineSMul, Point.mk.injEq]
  constructor
  · rw [show k₁ * l₁.c * (k₂ * l₂.b) - k₁ * l₁.b * (k₂ * l₂.c)
        = k₁ * k₂ * (l₁.c * l₂.b - l₁.b * l₂.c) by ring,
      show k₁ * l₁.b * (k₂ * l₂.a) - k₁ * l₁.a * (k₂ * l₂.b)
        = k₁ * k₂ * (l₁.b * l₂.a - l₁.a * l₂.b) by ring,
      mul_div_mul_left _ _ hk]
  · rw [show k₁ * l₁.a * (k₂ * l₂.c) - k₁ * l₁.c * (k₂ * l₂.a)
        = k₁ * k₂ * (l₁.a * l₂.c - l₁.c * l₂.a) by ring,
      show k₁ * l₁.b * (k₂ * l₂.a) - k₁ * l₁.a * (k₂ * l₂.b)
        = k₁ * k₂ * (l₁.b * l₂.a - l₁.a * l₂.b) by ring,
      mul_div_mul_left _ _ hk]

theorem find_intersection_comm (l₁ l₂ : Line) :
    find_intersection l₁ l₂ = find_intersection l₂ l₁ := by
  simp only [find_intersection, Point.mk.injEq]
  constructor
  · rw [show l₂.c * l₁.b - l₂.b * l₁.c = -(l₁.c * l₂.b - l₁.b * l₂.c) by ring,
      show l₂.b * l₁.a - l₂.a * l₁.b = -(l₁.b * l₂.a - l₁.a * l₂.b) by ring,
      neg_div_neg_eq]
  · rw [show l₂.a * l₁.c - l₂.c * l₁.a = -(l₁.a * l₂.c - l₁.c * l₂.a) by ring,
      show l₂.b * l₁.a - l₂.a * l₁.b = -(l₁.b * l₂.a - l₁.a * l₂.b) by ring,
      neg_div_neg_eq]

/-- When the determinant is nonzero, find_intersection returns a point lying on
both input lines. -/
theorem find_intersection_mem (l₁ l₂ : Line) (h : intersect_det l₁ l₂ ≠ 0) :
    lineEval l₁ (find_intersection l₁ l₂) = 0 ∧
    lineEval l₂ (find_intersection l₁ l₂) = 0 := by
  unfold intersect_det at h
  simp only [lineEval, find_intersection]
  constructor <;> (field_simp; ring)

/-- A zero of the perpendicular line through the midpoint of p and pp is
equidistant (in squared distance) from p and pp. -/
theorem raw_bisector_equidistant (p pp X : Point)
    (h : lineEval (get_perpendicular_line (rawLine p pp) (find_midpoint p pp)) X = 0) :
    distSq X p = distSq X pp := by
  simp only [lineEval, get_perpendicular_line, rawLine, find_midpoint] at h
  unfold distSq
  linear_combination 2 * h

/-- circle_inversion written with explicit squared-distance denominator. -/
theorem circle_inversion_eq (circ : PoinDisk) (p : Point) :
    circle_inversion p circ =
      ⟨circ.r * circ.r / distSq p ⟨circ.cx, circ.cy⟩ * (p.x - circ.cx) + circ.cx,
       circ.r * circ.r / distSq p ⟨circ.cx, circ.cy⟩ * (p.y - circ.cy) + circ.cy⟩ := by
  simp only [circle_inversion]
  rw [euclid_dist_mul_self]

/-- Power of the inversion center: a point equidistant from p and from the
circle inversion of p lies at squared distance (squared distance to the center
minus the squared circle radius) from p. -/
theorem inversion_power (circ : PoinDisk) (p X : Point)
    (hp : distSq p ⟨circ.cx, circ.cy⟩ ≠ 0)
    (hr : distSq p ⟨circ.cx, circ.cy⟩ ≠ circ.r * circ.r)
    (h : distSq X p = distSq X (circle_inversion p circ)) :
    distSq X p = distSq X ⟨circ.cx, circ.cy⟩ - circ.r * circ.r := by
  rw [circle_inversion_eq circ p] at h
  have hs : circ.r * circ.r / distSq p ⟨circ.cx, circ.cy⟩ * distSq p ⟨circ.cx, circ.cy⟩
      = circ.r * circ.r := div_mul_cancel₀ _ hp
  have hs1 : circ.r * circ.r / distSq p ⟨circ.cx, circ.cy⟩ ≠ 1 := by
    intro h1
    rw [h1, one_mul] at hs
    exact hr hs
  generalize hgen : circ.r * circ.r / distSq p ⟨circ.cx, circ.cy⟩ = s at h hs hs1
  unfold distSq at h hs ⊢
  dsimp only at h hs ⊢
  have key : (s - 1) *
      (2 * ((p.x - circ.cx) * (X.x - circ.cx) + (p.y - circ.cy) * (X.y - circ.cy))
        - (circ.r * circ.r + ((p.x - circ.cx) ^ 2 + (p.y - circ.cy) ^ 2))) = 0 := by
    linear_combination h + (s - 1) * hs
  rcases mul_eq_zero.mp key with h1 | h2
  · exact absurd (by linarith : s = 1) hs1
  · linear_combination -h2

/-- The raw (unnormalized) perpendicular bisector used by poincare_geodesic. -/
def rawBisector (p : Point) (d : PoinDisk) : Line :=
  get_perpendicular_line (rawLine p (circle_inversion p d))
    (find_midpoint p (circle_inversion p d))

theorem geodesic_bisector_eq_smul (p : Point) (d : PoinDisk) :
    ∃ k : ℝ, k ≠ 0 ∧ geodesic_bisector p d = lineSMul k (rawBisector p d) := by
  obtain ⟨k, hk, hline⟩ := euclid_line_eq_smul p (circle_inversion p d)
  exact ⟨k, hk, by rw [geodesic_bisector, hline, get_perpendicular_line_smul]; rfl⟩

theorem geodesic_center_raw (p q : Point) (d : PoinDisk) :
    geodesic_center p q d = find_intersection (rawBisector p d) (rawBisector q d) := by
  obtain ⟨k₁, hk₁, h₁⟩ := geodesic_bisector_eq_smul p d
  obtain ⟨k₂, hk₂, h₂⟩ := geodesic_bisector_eq_smul q d
  rw [geodesic_center, h₁, h₂, find_intersection_smul k₁ k₂ hk₁ hk₂]

theorem geodesic_det_raw_ne (p q : Point) (d : PoinDisk) (h : geodesic_det p q d ≠ 0) :
    intersect_det (rawBisector p d) (rawBisector q d) ≠ 0 := by
  obtain ⟨k₁, hk₁, h₁⟩ := geodesic_bisector_eq_smul p d
  obtain ⟨k₂, hk₂, h₂⟩ := geodesic_bisector_eq_smul q d
  intro h0
  apply h
  rw [geodesic_det, h₁, h₂, intersect_det_smul, h0, mul_zero]

theorem rawBisector_equidistant (p X : Point) (d : PoinDisk)
    (h : lineEval (rawBisector p d) X = 0) :
    distSq X p = distSq X (circle_inversion p d) := by
  unfold rawBisector at h
  exact raw_bisector_equidistant p (circle_inversion p d) X h

/-- Core geometric fact: the center computed inside poincare_geodesic is
equidistant from the two (already offset) endpoints, for nondegenerate data. -/
theorem geodesic_equidistant (p q : Point) (d : PoinDisk)
    (hdet : geodesic_det p q d ≠ 0)
    (hp : p ≠ ⟨d.cx, d.cy⟩) (hq : q ≠ ⟨d.cx, d.cy⟩)
    (hpr : distSq p ⟨d.cx, d.cy⟩ ≠ d.r * d.r)
    (hqr : distSq q ⟨d.cx, d.cy⟩ ≠ d.r * d.r) :
    euclid_dist p (geodesic_center p q d) = euclid_dist q (geodesic_center p q d) := by
  have hraw := geodesic_det_raw_ne p q d hdet
  have hmem := find_intersection_mem _ _ hraw
  rw [← geodesic_center_raw p q d] at hmem
  have h1 := rawBisector_equidistant p (geodesic_center p q d) d hmem.1
  have h2 := rawBisector_equidistant q (geodesic_center p q d) d hmem.2
  have e1 := inversion_power d p (geodesic_center p q d) (distSq_ne_zero p _ hp) hpr h1
  have e2 := inversion_power d q (geodesic_center p q d) (distSq_ne_zero q _ hq) hqr h2
  rw [euclid_dist_eq_sqrt_distSq, euclid_dist_eq_sqrt_distSq, distSq_comm p, distSq_comm q,
    e1, e2]

/-- Strictly-inside-the-disk points have squared center distance different from
the squared disk radius. -/
theorem interior_distSq_ne (p c : Point) (r : ℝ) (h : euclid_dist p c < r) :
    distSq p c ≠ r * r := by
  have h0 : 0 ≤ euclid_dist p c := Real.sqrt_nonneg _
  have h1 := mul_self_lt_mul_self h0 h
  rw [euclid_dist_mul_self] at h1
  linarith

theorem tanh_lt_one (x : ℝ) : Real.tanh x < 1 := by
  rw [Real.tanh_eq_sinh_div_cosh]
  exact (div_lt_one (Real.cosh_pos x)).mpr (Real.sinh_lt_cosh x)

theorem tanh_nonneg_of_nonneg (x : ℝ) (h : 0 ≤ x) : 0 ≤ Real.tanh x := by
  rw [Real.tanh_eq_sinh_div_cosh]
  exact div_nonneg (Real.sinh_nonneg_iff.mpr h) (Real.cosh_pos x).le

theorem tanh_injective : Function.Injective Real.tanh := by
  intro a b h
  rw [Real.tanh_eq_sinh_div_cosh, Real.tanh_eq_sinh_div_cosh] at h
  have h2 := (div_eq_div_iff (Real.cosh_pos a).ne' (Real.cosh_pos b).ne').mp h
  have h3 : Real.sinh (a - b) = Real.sinh 0 := by
    rw [Real.sinh_sub, Real.sinh_zero]
    linear_combination h2
  have h4 := Real.sinh_injective h3
  linarith

theorem acosh_nonneg (x : ℝ) (h : 1 ≤ x) : 0 ≤ acosh x := by
  unfold acosh
  apply Real.log_nonneg
  have h2 : 0 ≤ Real.sqrt (x * x - 1) := Real.sqrt_nonneg _
  linarith

theorem atan2_zero_zero : atan2 0 0 = 0 := by
  simp [atan2]

/-- A square 2 x 2 canvas disk: bounding box [0,2] x [0,2], center (1,1), radius 1
(the renderer builds exactly this for a square canvas of side 2). -/
def diskSq : PoinDisk := ⟨⟨0, 0, 2, 2⟩, 1, 1, 1⟩

/-- The disk the renderer builds for a 4 x 2 canvas: bounding box [0,4] x [0,2],
canvas center (2,1), radius min 2 1 = 1. -/
def diskWide : PoinDisk := ⟨⟨0, 0, 4, 2⟩, 2, 1, 1⟩

theorem offsetPoint_diskSq (p : Point) : offsetPoint p diskSq = p := by
  unfold offsetPoint diskSq
  ext <;> dsimp <;> ring

/-- Normalized branch of euclid_line, taken when the absolute value of the raw b
coefficient exceeds 0.001. -/
theorem euclid_line_of_pos (p q : Point) (h : 0.001 < |q.x - p.x|) :
    euclid_line p q = ⟨(p.y - q.y) / (q.x - p.x), (q.x - p.x) / (q.x - p.x),
      (p.x * q.y - q.x * p.y) / (q.x - p.x)⟩ := by
  simp only [euclid_line]
  rw [if_pos h]

/-- Unnormalized branch of euclid_line. -/
theorem euclid_line_of_neg (p q : Point) (h : ¬ 0.001 < |q.x - p.x|) :
    euclid_line p q = rawLine p q := by
  simp only [euclid_line]
  rw [if_neg h]
  rfl

theorem inv_pW : circle_inversion ⟨1.5, 1⟩ diskSq = ⟨3, 1⟩ := by
  rw [circle_inversion_eq]
  have hd : distSq ⟨1.5, 1⟩ (⟨diskSq.cx, diskSq.cy⟩ : Point) = 0.25 := by
    unfold distSq diskSq; norm_num
  rw [hd]
  norm_num [diskSq, Point.mk.injEq]

theorem inv_qW : circle_inversion ⟨1, 1.5⟩ diskSq = ⟨1, 3⟩ := by
  rw [circle_inversion_eq]
  have hd : distSq ⟨1, 1.5⟩ (⟨diskSq.cx, diskSq.cy⟩ : Point) = 0.25 := by
    unfold distSq diskSq; norm_num
  rw [hd]
  norm_num [diskSq, Point.mk.injEq]

theorem inv_qC : circle_inversion ⟨0.5, 1⟩ diskSq = ⟨-1, 1⟩ := by
  rw [circle_inversion_eq]
  have hd : distSq ⟨0.5, 1⟩ (⟨diskSq.cx, diskSq.cy⟩ : Point) = 0.25 := by
    unfold distSq diskSq; norm_num
  rw [hd]
  norm_num [diskSq, Point.mk.injEq]

theorem bisW_p : geodesic_bisector ⟨1.5, 1⟩ diskSq = ⟨1, 0, -2.25⟩ := by
  unfold geodesic_bisector
  rw [inv_pW, euclid_line_of_pos _ _ (by norm_num [abs_of_pos])]
  unfold get_perpendicular_line find_midpoint
  norm_num [Line.mk.injEq]

theorem bisW_q : geodesic_bisector ⟨1, 1.5⟩ diskSq = ⟨0, 1.5, -3.375⟩ := by
  unfold geodesic_bisector
  rw [inv_qW, euclid_line_of_neg _ _ (by norm_num [abs_zero])]
  unfold get_perpendicular_line find_midpoint rawLine
  norm_num [Line.mk.injEq]

theorem bisW_qC : geodesic_bisector ⟨0.5, 1⟩ diskSq = ⟨1, 0, 0.25⟩ := by
  unfold geodesic_bisector
  rw [inv_qC, euclid_line_of_pos _ _ (by norm_num [abs_of_neg])]
  unfold get_perpendicular_line find_midpoint
  norm_num [Line.mk.injEq]

theorem detW : geodesic_det ⟨1.5, 1⟩ ⟨1, 1.5⟩ diskSq = -1.5 := by
  unfold geodesic_det
  rw [bisW_p, bisW_q]
  unfold intersect_det
  norm_num

theorem distW_p : euclid_dist ⟨1.5, 1⟩ (⟨1, 1⟩ : Point) = 0.5 := by
  unfold euclid_dist
  rw [show ((1.5 : ℝ) - 1) ^ 2 + ((1 : ℝ) - 1) ^ 2 = 0.5 ^ 2 by norm_num]
  exact Real.sqrt_sq (by norm_num)

theorem distW_q : euclid_dist ⟨1, 1.5⟩ (⟨1, 1⟩ : Point) = 0.5 := by
  unfold euclid_dist
  rw [show ((1 : ℝ) - 1) ^ 2 + ((1.5 : ℝ) - 1) ^ 2 = 0.5 ^ 2 by norm_num]
  exact Real.sqrt_sq (by norm_num)

theorem circleR_origin : to_poincare_circleR ⟨0, 0⟩ 0 0 = 0 := by
  unfold to_poincare_circleR hypot
  norm_num [Real.sqrt_zero]

theorem poincareR_origin : to_poincare_poincareR ⟨0, 0⟩ 0 0 = 0 := by
  unfold to_poincare_poincareR
  rw [circleR_origin]
  norm_num
  unfold acosh
  norm_num [Real.sqrt_zero, Real.log_one, Real.tanh_zero]

theorem to_poincare_center_origin_diskSq :
    (to_poincare ⟨0, 0⟩ 0 0 diskSq).center = ⟨1, 1⟩ := by
  simp only [to_poincare]
  rw [poincareR_origin]
  norm_num [diskSq, Point.mk.injEq]

theorem canvas_to_disk_center_diskSq : canvas_to_disk ⟨1, 1⟩ diskSq = ⟨0, 0⟩ := by
  unfold canvas_to_disk diskSq
  norm_num [Point.mk.injEq]

theorem atanh_zero : atanh 0 = 0 := by
  unfold atanh
  norm_num [Real.log_one]

theorem poincare_circle_origin_r (ρ : ℝ) :
    (poincare_circle ⟨0, 0⟩ ρ diskSq).r = Real.tanh (ρ / 2) := by
  have hcr : hyper_radius_from_euclidean (poincare_circle_atanh_arg ⟨0, 0⟩) = 0 := by
    unfold poincare_circle_atanh_arg hyper_radius_from_euclidean
    norm_num [Real.sqrt_zero, atanh_zero]
  simp only [poincare_circle, r_poincare_to_euclid, hcr]
  rw [show (0 - ρ) / 2 = -(ρ / 2) by ring, show (0 + ρ) / 2 = ρ / 2 by ring, Real.tanh_neg]
  simp only [diskSq]
  ring

theorem hypW_det :
    geodesic_det (offsetPoint ⟨1.5, 1⟩ diskSq) (offsetPoint ⟨1, 1.5⟩ diskSq) diskSq ≠ 0 := by
  rw [offsetPoint_diskSq, offsetPoint_diskSq, detW]
  norm_num

theorem hypW_p_ne : offsetPoint ⟨1.5, 1⟩ diskSq ≠ (⟨diskSq.cx, diskSq.cy⟩ : Point) := by
  rw [offsetPoint_diskSq]
  intro h
  have hx := congrArg Point.x h
  norm_num [diskSq] at hx

theorem hypW_q_ne : offsetPoint ⟨1, 1.5⟩ diskSq ≠ (⟨diskSq.cx, diskSq.cy⟩ : Point) := by
  rw [offsetPoint_diskSq]
  intro h
  have hy := congrArg Point.y h
  norm_num [diskSq] at hy

theorem hypW_p_in :
    euclid_dist (offsetPoint ⟨1.5, 1⟩ diskSq) (⟨diskSq.cx, diskSq.cy⟩ : Point) < diskSq.r := by
  rw [offsetPoint_diskSq, show (⟨diskSq.cx, diskSq.cy⟩ : Point) = ⟨1, 1⟩ by
    norm_num [diskSq, Point.mk.injEq], distW_p]
  norm_num [diskSq]

theorem hypW_q_in :
    euclid_dist (offsetPoint ⟨1, 1.5⟩ diskSq) (⟨diskSq.cx, diskSq.cy⟩ : Point) < diskSq.r := by
  rw [offsetPoint_diskSq, show (⟨diskSq.cx, diskSq.cy⟩ : Point) = ⟨1, 1⟩ by
    norm_num [diskSq, Point.mk.injEq], distW_q]
  norm_num [diskSq]

/-- C1: the code does not detect the collinear (diametral) case.  For the
canvas points (1.5, 1) and (0.5, 1) — disk-relative (0.5, 0) and (-0.5, 0) on
the square disk, exactly the spec's degenerate pair — poincare_geodesic reaches
find_intersection with a zero determinant, so the division by zero happens (in
JS the center becomes NaN/Infinity); no straight-line sentinel is returned, and
the resulting center lies on neither perpendicular bisector. -/
theorem claim_C1_degenerate_reaches_zero_det :
    geodesic_det (offsetPoint ⟨1.5, 1⟩ diskSq) (offsetPoint ⟨0.5, 1⟩ diskSq) diskSq = 0 ∧
    lineEval (geodesic_bisector ⟨1.5, 1⟩ diskSq)
      (poincare_geodesic ⟨1.5, 1⟩ ⟨0.5, 1⟩ diskSq).c ≠ 0 := by
  constructor
  · rw [offsetPoint_diskSq, offsetPoint_diskSq]
    unfold geodesic_det
    rw [bisW_p, bisW_qC]
    unfold intersect_det
    norm_num
  · have hc : (poincare_geodesic ⟨1.5, 1⟩ ⟨0.5, 1⟩ diskSq).c =
        find_intersection ⟨1, 0, -2.25⟩ ⟨1, 0, 0.25⟩ := by
      show geodesic_center (offsetPoint ⟨1.5, 1⟩ diskSq) (offsetPoint ⟨0.5, 1⟩ diskSq) diskSq = _
      rw [offsetPoint_diskSq, offsetPoint_diskSq]
      unfold geodesic_center
      rw [bisW_p, bisW_qC]
    rw [hc, bisW_p]
    unfold find_intersection lineEval
    norm_num

/-- C2 counterexample: on the valid 4 x 2 canvas disk (radius equal to the
minimum of the half-sides), the round trip disk_to_canvas of canvas_to_disk
moves the canvas point (4, 0) to (3, 0), off by 1, far beyond the 1e-9
tolerance. -/
theorem claim_C2_counterexample :
    diskWide.r = min ((diskWide.boundbox.right - diskWide.boundbox.left) / 2)
        ((diskWide.boundbox.bottom - diskWide.boundbox.top) / 2) ∧
    0 < diskWide.r ∧
    disk_to_canvas (canvas_to_disk ⟨4, 0⟩ diskWide) diskWide = ⟨3, 0⟩ ∧
    ¬ |(disk_to_canvas (canvas_to_disk ⟨4, 0⟩ diskWide) diskWide).x - (4 : ℝ)| ≤ 1e-9 := by
  have hc : disk_to_canvas (canvas_to_disk ⟨4, 0⟩ diskWide) diskWide = (⟨3, 0⟩ : Point) := by
    unfold disk_to_canvas canvas_to_disk diskWide
    norm_num [Point.mk.injEq]
  refine ⟨?_, ?_, hc, ?_⟩
  · unfold diskWide
    norm_num
  · unfold diskWide
    norm_num
  · rw [hc]
    norm_num [abs_of_neg]

/-- C2 amended: the round trip disk_to_canvas of canvas_to_disk is the exact
identity (hence within the 1e-9 tolerance) whenever the disk's bounding box is
square, the disk center is the box midpoint, and the radius is the half-side;
for non-square boxes with radius min(half-width, half-height) it fails (see the
counterexample). -/
theorem claim_C2_roundtrip_square (d : PoinDisk) (p : Point)
    (hsq : d.boundbox.right - d.boundbox.left = d.boundbox.bottom - d.boundbox.top)
    (hr : d.r = (d.boundbox.right - d.boundbox.left) / 2)
    (hpos : 0 < d.r)
    (hcx : d.cx = (d.boundbox.left + d.boundbox.right) / 2)
    (hcy : d.cy = (d.boundbox.top + d.boundbox.bottom) / 2) :
    disk_to_canvas (canvas_to_disk p d) d = p := by
  have hW : d.boundbox.right - d.boundbox.left ≠ 0 := by
    intro h0
    rw [hr, h0] at hpos
    norm_num at hpos
  have hb : d.boundbox.bottom = d.boundbox.top + (d.boundbox.right - d.boundbox.left) := by
    linarith
  unfold disk_to_canvas canvas_to_disk
  ext <;> dsimp
  · rw [hr, hcx]
    field_simp
    ring
  · rw [hr, hcy, hb]
    field_simp
    ring

theorem claim_C2_witness :
    (diskSq.boundbox.right - diskSq.boundbox.left =
        diskSq.boundbox.bottom - diskSq.boundbox.top) ∧
    diskSq.r = (diskSq.boundbox.right - diskSq.boundbox.left) / 2 ∧
    0 < diskSq.r ∧
    diskSq.cx = (diskSq.boundbox.left + diskSq.boundbox.right) / 2 ∧
    diskSq.cy = (diskSq.boundbox.top + diskSq.boundbox.bottom) / 2 ∧
    disk_to_canvas (canvas_to_disk ⟨0.5, 1.7⟩ diskSq) diskSq = ⟨0.5, 1.7⟩ :=
  ⟨by norm_num [diskSq], by norm_num [diskSq], by norm_num [diskSq], by norm_num [diskSq],
   by norm_num [diskSq],
   claim_C2_roundtrip_square diskSq ⟨0.5, 1.7⟩ (by norm_num [diskSq]) (by norm_num [diskSq])
     (by norm_num [diskSq]) (by norm_num [diskSq]) (by norm_num [diskSq])⟩

/-- C3: find_intersection does not fail on parallel lines.  At the parallel
pair y = 1 and y = 2 the determinant it divides by is zero — the division by
zero the spec's DegenerateGeometry error was meant to prevent — and the point
it nevertheless returns lies on neither input line. -/
theorem claim_C3_parallel_determinant_zero :
    intersect_det ⟨0, 1, -1⟩ ⟨0, 1, -2⟩ = 0 ∧
    lineEval ⟨0, 1, -1⟩ (find_intersection ⟨0, 1, -1⟩ ⟨0, 1, -2⟩) ≠ 0 := by
  constructor
  · unfold intersect_det
    norm_num
  · unfold lineEval find_intersection
    norm_num

/-- C4 counterexample: on the 4 x 2 canvas disk (cx = 2 while r = 1), projecting
the layout point (0, 0) with reference center (0, 0) yields center x-coordinate
r = 1, while the claimed formula cx + r*poincareR*sin(theta) gives cx = 2. -/
theorem claim_C4_counterexample :
    (to_poincare ⟨0, 0⟩ 0 0 diskWide).center.x ≠
      diskWide.cx + diskWide.r * (to_poincare_poincareR ⟨0, 0⟩ 0 0 *
        Real.sin (to_poincare_theta ⟨0, 0⟩ 0 0)) := by
  have hcx : (to_poincare ⟨0, 0⟩ 0 0 diskWide).center.x = 1 := by
    simp only [to_poincare]
    rw [poincareR_origin]
    norm_num [diskWide]
  rw [hcx, poincareR_origin]
  norm_num [diskWide]

/-- C4 amended: to_poincare centers its polar-to-cartesian conversion at the
point (r, r) rather than the disk's canvas center, so the claimed formula
x = cx + r*poincareR*sin(theta), y = cy + r*poincareR*cos(theta) holds exactly
when cx = r and cy = r (as for the square canvases the renderer produces). -/
theorem claim_C4_center_when_cx_eq_r (ePosition : Point) (centerX centerY : ℝ) (d : PoinDisk)
    (hx : d.cx = d.r) (hy : d.cy = d.r) :
    (to_poincare ePosition centerX centerY d).center =
      ⟨d.cx + d.r * (to_poincare_poincareR ePosition centerX centerY *
          Real.sin (to_poincare_theta ePosition centerX centerY)),
       d.cy + d.r * (to_poincare_poincareR ePosition centerX centerY *
          Real.cos (to_poincare_theta ePosition centerX centerY))⟩ := by
  simp only [to_poincare]
  rw [hx, hy]

theorem claim_C4_witness :
    diskSq.cx = diskSq.r ∧ diskSq.cy = diskSq.r ∧
    (to_poincare ⟨0, 0⟩ 0 0 diskSq).center =
      ⟨diskSq.cx + diskSq.r * (to_poincare_poincareR ⟨0, 0⟩ 0 0 *
          Real.sin (to_poincare_theta ⟨0, 0⟩ 0 0)),
       diskSq.cy + diskSq.r * (to_poincare_poincareR ⟨0, 0⟩ 0 0 *
          Real.cos (to_poincare_theta ⟨0, 0⟩ 0 0))⟩ :=
  ⟨by norm_num [diskSq], by norm_num [diskSq],
   claim_C4_center_when_cx_eq_r ⟨0, 0⟩ 0 0 diskSq (by norm_num [diskSq])
     (by norm_num [diskSq])⟩

/-- C5 amended: the record returned by to_poincare carries the poincare_circle
of hyperbolic radius 0.05 at the projected disk-relative position, but the
circle written onto the node object in place uses hyperbolic radius 0.2, not
0.05. -/
theorem claim_C5_companion_circles (ePosition : Point) (centerX centerY : ℝ) (d : PoinDisk) :
    (to_poincare ePosition centerX centerY d).circle =
      poincare_circle (canvas_to_disk (to_poincare ePosition centerX centerY d).center d)
        0.05 d ∧
    to_poincare_inplace_circle ePosition centerX centerY d =
      poincare_circle (canvas_to_disk (to_poincare ePosition centerX centerY d).center d)
        0.2 d :=
  ⟨rfl, rfl⟩

/-- C5 counterexample: at layout point (0, 0) with reference center (0, 0) on
the square disk, the circle attached to the node in place is not the 0.05-radius
circle of the returned record: their rendered radii are tanh 0.1 and tanh 0.025,
which differ because tanh is injective. -/
theorem claim_C5_counterexample :
    to_poincare_inplace_circle ⟨0, 0⟩ 0 0 diskSq ≠ (to_poincare ⟨0, 0⟩ 0 0 diskSq).circle := by
  have hin : to_poincare_inplace_circle ⟨0, 0⟩ 0 0 diskSq =
      poincare_circle ⟨0, 0⟩ 0.2 diskSq := by
    unfold to_poincare_inplace_circle
    rw [to_poincare_center_origin_diskSq, canvas_to_disk_center_diskSq]
  have hret : (to_poincare ⟨0, 0⟩ 0 0 diskSq).circle =
      poincare_circle ⟨0, 0⟩ 0.05 diskSq := by
    have h0 : (to_poincare ⟨0, 0⟩ 0 0 diskSq).circle =
        poincare_circle (canvas_to_disk (to_poincare ⟨0, 0⟩ 0 0 diskSq).center diskSq)
          0.05 diskSq := rfl
    rw [h0, to_poincare_center_origin_diskSq, canvas_to_disk_center_diskSq]
  intro h
  rw [hin, hret] at h
  have h2 := congrArg PCircle.r h
  rw [poincare_circle_origin_r, poincare_circle_origin_r] at h2
  have h3 := tanh_injective h2
  norm_num at h3

/-- C6 amended: poincare_circle performs no clamping: the value it hands to
atanh is the raw Euclidean norm of the center, so for every center at or beyond
the unit circle that value lies at or outside the boundary of the open interval
on which JS Math.atanh is finite (Math.atanh itself gives Infinity at exactly 1
and NaN beyond) — it is never clamped strictly below 1 as the claim states. -/
theorem claim_C6_no_clamp (center : Point)
    (h : 1 ≤ Real.sqrt (center.x * center.x + center.y * center.y)) :
    poincare_circle_atanh_arg center =
      Real.sqrt (center.x * center.x + center.y * center.y) ∧
    ¬ atanhDomain (poincare_circle_atanh_arg center) := by
  refine ⟨rfl, ?_⟩
  intro hdom
  unfold atanhDomain at hdom
  exact absurd hdom.2 (not_lt.mpr h)

/-- C6 counterexample: at the boundary center (1, 0), poincare_circle passes
exactly 1 to atanh — not a value clamped strictly below 1 as the claim states. -/
theorem claim_C6_counterexample :
    poincare_circle_atanh_arg ⟨1, 0⟩ = 1 ∧ ¬ poincare_circle_atanh_arg ⟨1, 0⟩ < 1 := by
  have h : poincare_circle_atanh_arg ⟨1, 0⟩ = 1 := by
    unfold poincare_circle_atanh_arg
    norm_num [Real.sqrt_one]
  exact ⟨h, by rw [h]; exact lt_irrefl 1⟩

theorem claim_C6_witness :
    (1 : ℝ) ≤ Real.sqrt ((1 : ℝ) * 1 + 0 * 0) ∧
    (poincare_circle_atanh_arg ⟨1, 0⟩ = Real.sqrt ((1 : ℝ) * 1 + 0 * 0) ∧
     ¬ atanhDomain (poincare_circle_atanh_arg ⟨1, 0⟩)) := by
  have h1 : (1 : ℝ) ≤ Real.sqrt ((1 : ℝ) * 1 + 0 * 0) := by
    norm_num [Real.sqrt_one]
  exact ⟨h1, claim_C6_no_clamp ⟨1, 0⟩ h1⟩

/-- C7: for a nondegenerate geodesic between interior points distinct from the
disk center, both endpoints of the arc returned by poincare_geodesic lie at
distance exactly the returned radius from the computed center. -/
theorem claim_C7_arc_containment (p q : Point) (d : PoinDisk)
    (hdet : geodesic_det (offsetPoint p d) (offsetPoint q d) d ≠ 0)
    (hp : offsetPoint p d ≠ ⟨d.cx, d.cy⟩)
    (hq : offsetPoint q d ≠ ⟨d.cx, d.cy⟩)
    (hip : euclid_dist (offsetPoint p d) ⟨d.cx, d.cy⟩ < d.r)
    (hiq : euclid_dist (offsetPoint q d) ⟨d.cx, d.cy⟩ < d.r) :
    euclid_dist (poincare_geodesic p q d).p1 (poincare_geodesic p q d).c =
      (poincare_geodesic p q d).r ∧
    euclid_dist (poincare_geodesic p q d).p2 (poincare_geodesic p q d).c =
      (poincare_geodesic p q d).r := by
  have heq := geodesic_equidistant (offsetPoint p d) (offsetPoint q d) d hdet hp hq
    (interior_distSq_ne _ _ _ hip) (interior_distSq_ne _ _ _ hiq)
  exact ⟨rfl, heq.symm⟩

theorem claim_C7_witness :
    geodesic_det (offsetPoint ⟨1.5, 1⟩ diskSq) (offsetPoint ⟨1, 1.5⟩ diskSq) diskSq ≠ 0 ∧
    offsetPoint ⟨1.5, 1⟩ diskSq ≠ (⟨diskSq.cx, diskSq.cy⟩ : Point) ∧
    offsetPoint ⟨1, 1.5⟩ diskSq ≠ (⟨diskSq.cx, diskSq.cy⟩ : Point) ∧
    euclid_dist (offsetPoint ⟨1.5, 1⟩ diskSq) (⟨diskSq.cx, diskSq.cy⟩ : Point) < diskSq.r ∧
    euclid_dist (offsetPoint ⟨1, 1.5⟩ diskSq) (⟨diskSq.cx, diskSq.cy⟩ : Point) < diskSq.r ∧
    (euclid_dist (poincare_geodesic ⟨1.5, 1⟩ ⟨1, 1.5⟩ diskSq).p1
        (poincare_geodesic ⟨1.5, 1⟩ ⟨1, 1.5⟩ diskSq).c =
      (poincare_geodesic ⟨1.5, 1⟩ ⟨1, 1.5⟩ diskSq).r ∧
     euclid_dist (poincare_geodesic ⟨1.5, 1⟩ ⟨1, 1.5⟩ diskSq).p2
        (poincare_geodesic ⟨1.5, 1⟩ ⟨1, 1.5⟩ diskSq).c =
      (poincare_geodesic ⟨1.5, 1⟩ ⟨1, 1.5⟩ diskSq).r) :=
  ⟨hypW_det, hypW_p_ne, hypW_q_ne, hypW_p_in, hypW_q_in,
   claim_C7_arc_containment ⟨1.5, 1⟩ ⟨1, 1.5⟩ diskSq hypW_det hypW_p_ne hypW_q_ne
     hypW_p_in hypW_q_in⟩

/-- C8: for a nondegenerate geodesic between interior points distinct from the
disk center, poincare_geodesic is symmetric in its arguments: the computed
center is identical and the radius equal regardless of argument order. -/
theorem claim_C8_geodesic_symmetric (p q : Point) (d : PoinDisk)
    (hdet : geodesic_det (offsetPoint p d) (offsetPoint q d) d ≠ 0)
    (hp : offsetPoint p d ≠ ⟨d.cx, d.cy⟩)
    (hq : offsetPoint q d ≠ ⟨d.cx, d.cy⟩)
    (hip : euclid_dist (offsetPoint p d) ⟨d.cx, d.cy⟩ < d.r)
    (hiq : euclid_dist (offsetPoint q d) ⟨d.cx, d.cy⟩ < d.r) :
    (poincare_geodesic p q d).c = (poincare_geodesic q p d).c ∧
    (poincare_geodesic p q d).r = (poincare_geodesic q p d).r := by
  have hcomm : geodesic_center (offsetPoint p d) (offsetPoint q d) d =
      geodesic_center (offsetPoint q d) (offsetPoint p d) d := by
    unfold geodesic_center
    exact find_intersection_comm _ _
  have heq := geodesic_equidistant (offsetPoint p d) (offsetPoint q d) d hdet hp hq
    (interior_distSq_ne _ _ _ hip) (interior_distSq_ne _ _ _ hiq)
  refine ⟨hcomm, ?_⟩
  show euclid_dist (offsetPoint p d) (geodesic_center (offsetPoint p d) (offsetPoint q d) d) =
    euclid_dist (offsetPoint q d) (geodesic_center (offsetPoint q d) (offsetPoint p d) d)
  rw [← hcomm]
  exact heq

theorem claim_C8_witness :
    geodesic_det (offsetPoint ⟨1.5, 1⟩ diskSq) (offsetPoint ⟨1, 1.5⟩ diskSq) diskSq ≠ 0 ∧
    offsetPoint ⟨1.5, 1⟩ diskSq ≠ (⟨diskSq.cx, diskSq.cy⟩ : Point) ∧
    offsetPoint ⟨1, 1.5⟩ diskSq ≠ (⟨diskSq.cx, diskSq.cy⟩ : Point) ∧
    euclid_dist (offsetPoint ⟨1.5, 1⟩ diskSq) (⟨diskSq.cx, diskSq.cy⟩ : Point) < diskSq.r ∧
    euclid_dist (offsetPoint ⟨1, 1.5⟩ diskSq) (⟨diskSq.cx, diskSq.cy⟩ : Point) < diskSq.r ∧
    ((poincare_geodesic ⟨1.5, 1⟩ ⟨1, 1.5⟩ diskSq).c =
        (poincare_geodesic ⟨1, 1.5⟩ ⟨1.5, 1⟩ diskSq).c ∧
     (poincare_geodesic ⟨1.5, 1⟩ ⟨1, 1.5⟩ diskSq).r =
        (poincare_geodesic ⟨1, 1.5⟩ ⟨1.5, 1⟩ diskSq).r) :=
  ⟨hypW_det, hypW_p_ne, hypW_q_ne, hypW_p_in, hypW_q_in,
   claim_C8_geodesic_symmetric ⟨1.5, 1⟩ ⟨1, 1.5⟩ diskSq hypW_det hypW_p_ne hypW_q_ne
     hypW_p_in hypW_q_in⟩

/-- C9: the Poincare radius computed inside to_poincare,
poincareR = tanh(acosh(0.5*circleR*circleR + 1)/2), always lies in [0, 1):
projected points never reach the disk boundary. -/
theorem claim_C9_poincareR_bounded (ePosition : Point) (centerX centerY : ℝ) :
    0 ≤ to_poincare_poincareR ePosition centerX centerY ∧
    to_poincare_poincareR ePosition centerX centerY < 1 := by
  unfold to_poincare_poincareR
  constructor
  · apply tanh_nonneg_of_nonneg
    have h1 : (1 : ℝ) ≤ 0.5 * to_poincare_circleR ePosition centerX centerY *
        to_poincare_circleR ePosition centerX centerY + 1 := by
      nlinarith [sq_nonneg (to_poincare_circleR ePosition centerX centerY)]
    have h2 := acosh_nonneg _ h1
    linarith
  · exact tanh_lt_one _

/-- C10: circle_inversion is well defined exactly away from the circle center:
for p distinct from the center it returns the point on the ray from the center
through p whose distance from the center is r*r divided by the distance of p
(stated multiplicatively), while for p equal to the center the distance entering
the scale factor's denominator is zero, so the JS division r*r/(dist*dist)
divides by zero — and poincare_geodesic applies circle_inversion to its offset
endpoints without guarding that case. -/
theorem claim_C10_circle_inversion (circ : PoinDisk) (p : Point) :
    (p ≠ ⟨circ.cx, circ.cy⟩ →
      euclid_dist p ⟨circ.cx, circ.cy⟩ ≠ 0 ∧
      euclid_dist (circle_inversion p circ) ⟨circ.cx, circ.cy⟩ *
        euclid_dist p ⟨circ.cx, circ.cy⟩ = circ.r * circ.r ∧
      ∃ t : ℝ, 0 ≤ t ∧ (circle_inversion p circ).x - circ.cx = t * (p.x - circ.cx) ∧
        (circle_inversion p circ).y - circ.cy = t * (p.y - circ.cy)) ∧
    (p = ⟨circ.cx, circ.cy⟩ → euclid_dist p ⟨circ.cx, circ.cy⟩ = 0) ∧
    (offsetPoint p circ = ⟨circ.cx, circ.cy⟩ →
      euclid_dist (offsetPoint p circ) ⟨circ.cx, circ.cy⟩ *
        euclid_dist (offsetPoint p circ) ⟨circ.cx, circ.cy⟩ = 0) := by
  refine ⟨?_, ?_, ?_⟩
  · intro hp
    have hd2 : distSq p ⟨circ.cx, circ.cy⟩ ≠ 0 := distSq_ne_zero _ _ hp
    have hd2pos : 0 < distSq p ⟨circ.cx, circ.cy⟩ :=
      lt_of_le_of_ne (by unfold distSq; positivity) (Ne.symm hd2)
    have hs : 0 ≤ circ.r * circ.r / distSq p ⟨circ.cx, circ.cy⟩ :=
      div_nonneg (mul_self_nonneg _) hd2pos.le
    have hinv : euclid_dist (circle_inversion p circ) ⟨circ.cx, circ.cy⟩ =
        circ.r * circ.r / distSq p ⟨circ.cx, circ.cy⟩ *
          euclid_dist p ⟨circ.cx, circ.cy⟩ := by
      rw [circle_inversion_eq, euclid_dist_eq_sqrt_distSq, euclid_dist_eq_sqrt_distSq]
      unfold distSq
      dsimp only
      rw [show (circ.r * circ.r / ((p.x - circ.cx) ^ 2 + (p.y - circ.cy) ^ 2) *
            (p.x - circ.cx) + circ.cx - circ.cx) ^ 2 +
          (circ.r * circ.r / ((p.x - circ.cx) ^ 2 + (p.y - circ.cy) ^ 2) *
            (p.y - circ.cy) + circ.cy - circ.cy) ^ 2 =
          (circ.r * circ.r / ((p.x - circ.cx) ^ 2 + (p.y - circ.cy) ^ 2)) ^ 2 *
            ((p.x - circ.cx) ^ 2 + (p.y - circ.cy) ^ 2) by ring]
      rw [Real.sqrt_mul (sq_nonneg _), Real.sqrt_sq]
      exact hs
    refine ⟨?_, ?_, ?_⟩
    · rw [euclid_dist_eq_sqrt_distSq]
      exact (Real.sqrt_pos.mpr hd2pos).ne'
    · rw [hinv, mul_assoc, euclid_dist_mul_self]
      exact div_mul_cancel₀ _ hd2
    · refine ⟨circ.r * circ.r / distSq p ⟨circ.cx, circ.cy⟩, hs, ?_, ?_⟩ <;>
        rw [circle_inversion_eq] <;> dsimp only <;> ring
  · intro hp
    rw [hp]
    unfold euclid_dist
    norm_num [Real.sqrt_zero]
  · intro hp
    rw [hp]
    unfold euclid_dist
    norm_num [Real.sqrt_zero]

theorem claim_C10_witness :
    (⟨1.5, 1⟩ : Point) ≠ (⟨diskSq.cx, diskSq.cy⟩ : Point) ∧
    (euclid_dist ⟨1.5, 1⟩ (⟨diskSq.cx, diskSq.cy⟩ : Point) ≠ 0 ∧
     euclid_dist (circle_inversion ⟨1.5, 1⟩ diskSq) (⟨diskSq.cx, diskSq.cy⟩ : Point) *
       euclid_dist ⟨1.5, 1⟩ (⟨diskSq.cx, diskSq.cy⟩ : Point) = diskSq.r * diskSq.r ∧
     ∃ t : ℝ, 0 ≤ t ∧
       (circle_inversion ⟨1.5, 1⟩ diskSq).x - diskSq.cx = t * ((1.5 : ℝ) - diskSq.cx) ∧
       (circle_inversion ⟨1.5, 1⟩ diskSq).y - diskSq.cy = t * ((1 : ℝ) - diskSq.cy)) := by
  have hne : (⟨1.5, 1⟩ : Point) ≠ (⟨diskSq.cx, diskSq.cy⟩ : Point) := by
    intro h
    have hx := congrArg Point.x h
    norm_num [diskSq] at hx
  exact ⟨hne, (claim_C10_circle_inversion diskSq ⟨1.5, 1⟩).1 hne⟩

end HyperbolicPC
